import Mathlib

/-!
# zip-diff: a shallow embedding of `main.go`

The program compares two zip archives entry by entry.  The embedding keeps the
source's function names (`main`, `diffZipHeader`, `compareFiles`, `zipChecksum`,
`closeAndIgnoreError`) and the field names of `zip.File`.  Go's `error` is an
`Option String` (`none` is `nil`), built with the same format strings as the
source.  Opening and closing a content stream is recorded in an event trace that
every function returns next to its result, so that statements about which
streams are touched can be made; a run of `main` ends in an `Outcome` with the
exit status, the logged message and the effects on archive handles and streams.

External collaborators: `crypto/sha256` is a parameter `sha256` of the
functions that use it (from the bytes read to the bytes of the digest, each
below 256) and `zip.OpenReader` a parameter of `main`;
`log.Fatal`, `time.Time.Equal`, `bytes.Equal`,
`slices.IndexFunc` and `hex.EncodeToString` are written out.
-/

namespace ZipDiff

/-! ## Data model -/

/-- A `time.Time` read from an archive directory: the instant (seconds since the
epoch and nanoseconds within the second) and the location it is displayed in
(the zone offset in seconds east of UTC).  Times read from an archive carry no
monotonic clock reading. -/
structure Time where
  sec : Int
  nsec : Nat
  loc : Int
  deriving DecidableEq, Repr

/-- Go's `Time.Equal` for times without monotonic reading: the two values denote the
same instant; the location is not looked at. -/
def Time.Equal (t u : Time) : Bool :=
  t.sec == u.sec && t.nsec == u.nsec

/-- What happens when the content of an entry is requested: `file.Open()` fails
with an error, or the stream opens and reading it fails with an error, or the
stream opens and yields its decompressed bytes up to the end. -/
inductive Stream where
  | openError (e : String)
  | readError (e : String)
  | bytes (data : List Nat)
  deriving DecidableEq, Repr

/-- The part of `zip.File` the program reads: the name, the twelve compared
header fields, and the behaviour of the content stream.  Unsigned machine
integers are naturals (they are only compared for equality), `Extra` is a byte
sequence. -/
structure File where
  Name : String
  UncompressedSize64 : Nat
  Modified : Time
  Method : Nat
  Comment : String
  Extra : List Nat
  NonUTF8 : Bool
  CreatorVersion : Nat
  ReaderVersion : Nat
  Flags : Nat
  CRC32 : Nat
  CompressedSize64 : Nat
  ExternalAttrs : Nat
  stream : Stream
  deriving DecidableEq, Repr

/-- Effects on content streams: a failed `file.Open()`, a successful one, and the
deferred `Close` of an opened stream. -/
inductive Event where
  | openFailed (f : File)
  | opened (f : File)
  | closed (f : File)
  deriving DecidableEq, Repr

/-! ## Library functions written out -/

/-- The loop of `slices.IndexFunc`, with the running index. -/
def IndexFunc.loop {α : Type} (f : α → Bool) : List α → Nat → Int
  | [], _ => -1
  | x :: xs, i => if f x then (i : Int) else IndexFunc.loop f xs (i + 1)

/-- Go's `slices.IndexFunc`: the first index whose element satisfies `f`, or `-1`. -/
def IndexFunc {α : Type} (s : List α) (f : α → Bool) : Int :=
  IndexFunc.loop f s 0

/-- Go's `bytes.Equal`: same length and the same bytes. -/
def bytesEqual : List Nat → List Nat → Bool
  | [], [] => true
  | x :: xs, y :: ys => x == y && bytesEqual xs ys
  | _, _ => false

/-- One digit of the table `0123456789abcdef`. -/
def hexDigit (n : Nat) : Char :=
  "0123456789abcdef".toList.getD n '0'

/-- Go's `hex.EncodeToString`: two lower-case hexadecimal digits per byte, the digit
of `v >> 4` and then the digit of `v & 0x0f`. -/
def EncodeToString (src : List (Fin 256)) : String :=
  String.mk (src.flatMap fun v => [hexDigit (v.val / 16), hexDigit (v.val % 16)])

/-- The verb `%q` applied to a checksum: the text between double quotes.  A
checksum is hexadecimal text, so nothing in it is escaped. -/
def quote (s : String) : String :=
  "\"" ++ s ++ "\""

/-! ## The program -/

/-- `zipChecksum`: open the content stream, hash everything read from it, close
the stream (deferred), return the hexadecimal digest; the error of `Open` or of
the copy is returned as it is. -/
def zipChecksum (sha256 : List Nat → List (Fin 256)) (file : File) :
    Except String String × List Event :=
  match file.stream with
  | .openError err => (.error err, [.openFailed file])
  | .readError err => (.error err, [.opened file, .closed file])
  | .bytes data => (.ok (EncodeToString (sha256 data)), [.opened file, .closed file])

/-- `compareFiles`: the twelve header comparisons in the order of the source,
then the two checksums. -/
def compareFiles (sha256 : List Nat → List (Fin 256)) (file1 file2 : File) :
    Option String × List Event :=
  if file1.UncompressedSize64 ≠ file2.UncompressedSize64 then
    (some ("file " ++ file1.Name ++ " has different size"), [])
  else if !file1.Modified.Equal file2.Modified then
    (some ("file " ++ file1.Name ++ " has different modified time"), [])
  else if file1.Method ≠ file2.Method then
    (some ("file " ++ file1.Name ++ " has different compression method"), [])
  else if file1.Comment ≠ file2.Comment then
    (some ("file " ++ file1.Name ++ " has different comment"), [])
  else if !bytesEqual file1.Extra file2.Extra then
    (some ("file " ++ file1.Name ++ " has different extra data"), [])
  else if file1.NonUTF8 ≠ file2.NonUTF8 then
    (some ("file " ++ file1.Name ++ " has different NonUTF8 flag"), [])
  else if file1.CreatorVersion ≠ file2.CreatorVersion then
    (some ("file " ++ file1.Name ++ " has different creator version"), [])
  else if file1.ReaderVersion ≠ file2.ReaderVersion then
    (some ("file " ++ file1.Name ++ " has different reader version"), [])
  else if file1.Flags ≠ file2.Flags then
    (some ("file " ++ file1.Name ++ " has different flags"), [])
  else if file1.CRC32 ≠ file2.CRC32 then
    (some ("file " ++ file1.Name ++ " has different CRC32"), [])
  else if file1.CompressedSize64 ≠ file2.CompressedSize64 then
    (some ("file " ++ file1.Name ++ " has different compressed size"), [])
  else if file1.ExternalAttrs ≠ file2.ExternalAttrs then
    (some ("file " ++ file1.Name ++ " has different external attributes"), [])
  else
    match zipChecksum sha256 file1 with
    | (.error err, t1) =>
      (some ("file " ++ file1.Name ++ " cannot be opened from file 1: " ++ err), t1)
    | (.ok checksum1, t1) =>
      match zipChecksum sha256 file2 with
      | (.error err, t2) =>
        (some ("file " ++ file1.Name ++ " cannot be opened from file 1: " ++ err), t1 ++ t2)
      | (.ok checksum2, t2) =>
        if checksum1 ≠ checksum2 then
          (some ("file " ++ file1.Name ++ " has different content " ++ quote checksum1
            ++ " != " ++ quote checksum2), t1 ++ t2)
        else
          (none, t1 ++ t2)

/-- `diffZipHeader`: for each entry of the first archive in stored order, find the
index of the first entry of the second archive with the same name, fail when
there is none, compare the two entries and fail when they differ.  The
indexing `headers2[index2]` cannot go out of range; the model gives that
branch Go's run-time error text. -/
def diffZipHeader (sha256 : List Nat → List (Fin 256)) (headers1 headers2 : List File) :
    Option String × List Event :=
  match headers1 with
  | [] => (none, [])
  | header1 :: rest =>
    let index2 := IndexFunc headers2 (fun header2 => header1.Name == header2.Name)
    if index2 < 0 then
      (some ("file " ++ header1.Name ++ " not found in the second zip"), [])
    else
      match headers2[index2.toNat]? with
      | none => (some "runtime error: index out of range", [])
      | some header2 =>
        match compareFiles sha256 header1 header2 with
        | (some err, t) => (some ("file " ++ header1.Name ++ " is different: " ++ err), t)
        | (none, t) =>
          let r := diffZipHeader sha256 rest headers2
          (r.1, t ++ r.2)

/-! ## Vocabulary of the specification -/

/-- The twelve compared header fields. -/
inductive Field where
  | uncompressedSize
  | modifiedTime
  | compressionMethod
  | comment
  | extraData
  | nonUTF8Flag
  | creatorVersion
  | readerVersion
  | flags
  | crc32
  | compressedSize
  | externalAttributes
  deriving DecidableEq, Repr

/-- The fixed order in which the specification lists the compared fields. -/
def Field.order : List Field :=
  [.uncompressedSize, .modifiedTime, .compressionMethod, .comment, .extraData,
   .nonUTF8Flag, .creatorVersion, .readerVersion, .flags, .crc32, .compressedSize,
   .externalAttributes]

/-- Two timestamps denote the same instant. -/
def Time.sameInstant (t u : Time) : Prop :=
  t.sec = u.sec ∧ t.nsec = u.nsec

instance (t u : Time) : Decidable (t.sameInstant u) :=
  inferInstanceAs (Decidable (_ ∧ _))

/-- The two entries carry the same value in the given field: scalars and strings
are equal, the extra data are the same byte sequence, the modified times are
the same instant. -/
def Field.same (fld : Field) (a b : File) : Prop :=
  match fld with
  | .uncompressedSize => a.UncompressedSize64 = b.UncompressedSize64
  | .modifiedTime => a.Modified.sameInstant b.Modified
  | .compressionMethod => a.Method = b.Method
  | .comment => a.Comment = b.Comment
  | .extraData => a.Extra = b.Extra
  | .nonUTF8Flag => a.NonUTF8 = b.NonUTF8
  | .creatorVersion => a.CreatorVersion = b.CreatorVersion
  | .readerVersion => a.ReaderVersion = b.ReaderVersion
  | .flags => a.Flags = b.Flags
  | .crc32 => a.CRC32 = b.CRC32
  | .compressedSize => a.CompressedSize64 = b.CompressedSize64
  | .externalAttributes => a.ExternalAttrs = b.ExternalAttrs

instance (fld : Field) (a b : File) : Decidable (fld.same a b) := by
  cases fld <;> unfold Field.same <;> infer_instance

/-- The words with which a mismatch names the field. -/
def Field.phrase : Field → String
  | .uncompressedSize => "size"
  | .modifiedTime => "modified time"
  | .compressionMethod => "compression method"
  | .comment => "comment"
  | .extraData => "extra data"
  | .nonUTF8Flag => "NonUTF8 flag"
  | .creatorVersion => "creator version"
  | .readerVersion => "reader version"
  | .flags => "flags"
  | .crc32 => "CRC32"
  | .compressedSize => "compressed size"
  | .externalAttributes => "external attributes"

/-- The text of the error kind `MissingEntry(name)`. -/
def MissingEntry (name : String) : String :=
  "file " ++ name ++ " not found in the second zip"

/-- The text of the error kind `MetadataMismatch(name, field)`, as `compareFiles`
returns it. -/
def MetadataMismatch (name : String) (fld : Field) : String :=
  "file " ++ name ++ " has different " ++ fld.phrase

/-- The text of the error kind `ContentMismatch(name, digestA, digestB)`, as
`compareFiles` returns it. -/
def ContentMismatch (name digestA digestB : String) : String :=
  "file " ++ name ++ " has different content " ++ quote digestA ++ " != " ++ quote digestB

/-- How `diffZipHeader` wraps a failure of `compareFiles` with the entry name. -/
def wrapped (name err : String) : String :=
  "file " ++ name ++ " is different: " ++ err

/-- The first entry, in stored order, whose name is exactly `name`. -/
def firstNamed (headers : List File) (name : String) : Option File :=
  headers.find? (fun h => decide (h.Name = name))

/-- `Inserted P B B2`: the sequence `B2` is `B` with further entries, each
satisfying `P`, inserted at any positions. -/
inductive Inserted (P : File → Prop) : List File → List File → Prop where
  | done : Inserted P [] []
  | keep (b : File) {B B2 : List File} : Inserted P B B2 → Inserted P (b :: B) (b :: B2)
  | extra (x : File) {B B2 : List File} : P x → Inserted P B B2 → Inserted P B (x :: B2)

/-! ## Concrete entries -/

/-- The entry `x.txt` holding the five bytes of `hello`. -/
def helloEntry : File :=
  { Name := "x.txt", UncompressedSize64 := 5, Modified := ⟨1700000000, 0, 0⟩, Method := 8,
    Comment := "", Extra := [], NonUTF8 := false, CreatorVersion := 20, ReaderVersion := 20,
    Flags := 0, CRC32 := 907060870, CompressedSize64 := 7, ExternalAttrs := 0,
    stream := .bytes [104, 101, 108, 108, 111] }

/-- The entry `x.txt` of another archive, one byte longer. -/
def longerEntry : File :=
  { helloEntry with UncompressedSize64 := 6, stream := .bytes [104, 101, 108, 108, 111, 33] }

/-- An entry named `y.txt`. -/
def otherEntry : File :=
  { helloEntry with Name := "y.txt" }

/-- The entry `x.txt` with a modified time one nanosecond later. -/
def laterEntry : File :=
  { helloEntry with Modified := ⟨1700000000, 1, 0⟩ }

/-- The entry `x.txt` with the same modified instant shown in another location (one
hour east of UTC). -/
def zonedEntry : File :=
  { helloEntry with Modified := ⟨1700000000, 0, 3600⟩ }

/-- The entry `x.txt` whose content stream cannot be opened. -/
def brokenEntry : File :=
  { helloEntry with stream := .openError "zip: unsupported compression algorithm" }

/-! ## The entry point -/

/-- What a run does to the archive handles (`zr1` is handle 1, `zr2` is handle 2) and
to the content streams, in order. -/
inductive Effect where
  | archiveOpened (handle : Nat)
  | archiveClosed (handle : Nat)
  | stream (e : Event)
  deriving DecidableEq, Repr

/-- The end of a run: the exit status, the message written by `log.Fatal` (when
there is one; the date and time that the logger puts before it are left out),
and the effects up to the exit. -/
structure Outcome where
  status : Nat
  message : Option String
  effects : List Effect
  deriving DecidableEq, Repr

/-- Go's `log.Fatal`: the message is written and `os.Exit(1)` is called.  The
process ends at once: no deferred call is run. -/
def Fatal (message : String) (effects : List Effect) : Outcome :=
  { status := 1, message := some message, effects := effects }

/-- `closeAndIgnoreError` on an archive handle: the handle is closed, the result of
`Close` is dropped. -/
def closeAndIgnoreError (handle : Nat) : List Effect :=
  [.archiveClosed handle]

/-- What `zip.OpenReader` returns, a reader and an error of which either may be nil:
an error and no reader (nothing is open); a reader together with an error (the
archive is open; the library does so for `ErrInsecurePath`); or a reader and no
error.  A reader is given by the entries of its `File` field. -/
inductive OpenResult where
  | error (err : String)
  | readerAndError (zr : List File) (err : String)
  | ok (zr : List File)
  deriving DecidableEq, Repr

/-- `main`: `Args` is `os.Args` (the program name first), `OpenReader` is
`zip.OpenReader` on the file system of the run.  The two deferred closes run,
last first, only when `main` returns; the calls of `log.Fatal` after an archive
was opened leave them pending. -/
def main (sha256 : List Nat → List (Fin 256)) (OpenReader : String → OpenResult)
    (Args : List String) : Outcome :=
  if Args.length < 3 then
    Fatal "Not enough arguments" []
  else
    let filePath1 := Args.getD 1 ""
    let filePath2 := Args.getD 2 ""
    match OpenReader filePath1 with
    | .error err => Fatal err []
    | .readerAndError _ err => Fatal err [.archiveOpened 1]
    | .ok zr1 =>
      match OpenReader filePath2 with
      | .error err => Fatal err [.archiveOpened 1]
      | .readerAndError _ err => Fatal err [.archiveOpened 1, .archiveOpened 2]
      | .ok zr2 =>
        match diffZipHeader sha256 zr1 zr2 with
        | (some err, t) =>
          Fatal err ([.archiveOpened 1, .archiveOpened 2] ++ t.map .stream)
        | (none, t) =>
          { status := 0, message := none,
            effects := [.archiveOpened 1, .archiveOpened 2] ++ t.map .stream
              ++ closeAndIgnoreError 2 ++ closeAndIgnoreError 1 }

/-! ## Vocabulary of the later claims -/

/-- The text of the error kind `ContentOpenError(name)` with the underlying error, as
`compareFiles` returns it. -/
def ContentOpenError (name err : String) : String :=
  "file " ++ name ++ " cannot be opened from file 1: " ++ err

/-- The content streams held open after a sequence of events, starting from the
streams `open0`. -/
def held (open0 : List File) : List Event → List File
  | [] => open0
  | .openFailed _ :: es => held open0 es
  | .opened f :: es => held (f :: open0) es
  | .closed f :: es => held (open0.erase f) es

/-- The positional arguments of an invocation: `os.Args` without the program name. -/
def positional (Args : List String) : List String :=
  Args.tail

/-- A file system on which `a.zip` holds `x.txt` and every other path fails to open. -/
def onlyFirstArchive : String → OpenResult :=
  fun path =>
    if path = "a.zip" then .ok [helloEntry]
    else .error ("open " ++ path ++ ": no such file or directory")

/-- A file system on which `a.zip` holds `x.txt` and every other path is an empty
archive. -/
def secondArchiveEmpty : String → OpenResult :=
  fun path => if path = "a.zip" then .ok [helloEntry] else .ok []

/-- A file system on which every path is an empty archive. -/
def everyArchiveEmpty : String → OpenResult :=
  fun _ => .ok []

/-! ## The lookup of `diffZipHeader` -/

theorem IndexFunc.loop_of_find_none {α : Type} (f : α → Bool) (s : List α) (i : Nat)
    (h : s.find? f = none) : IndexFunc.loop f s i = -1 := by
  induction s generalizing i with
  | nil => rfl
  | cons x xs ih =>
    by_cases hx : f x = true
    · simp [List.find?, hx] at h
    · have hx' : f x = false := by simpa using hx
      simp only [List.find?, hx'] at h
      simp only [IndexFunc.loop, hx', Bool.false_eq_true, if_false]
      exact ih (i + 1) h

theorem IndexFunc.loop_of_find_some {α : Type} (f : α → Bool) (s : List α) (i : Nat) (b : α)
    (h : s.find? f = some b) :
    ∃ k : Nat, IndexFunc.loop f s i = ((i + k : Nat) : Int) ∧ s[k]? = some b := by
  induction s generalizing i with
  | nil => simp at h
  | cons x xs ih =>
    by_cases hx : f x = true
    · simp only [List.find?, hx, Option.some.injEq] at h
      refine ⟨0, ?_, ?_⟩
      · simp [IndexFunc.loop, hx]
      · simp [h]
    · have hx' : f x = false := by simpa using hx
      simp only [List.find?, hx'] at h
      obtain ⟨k, hk, hget⟩ := ih (i + 1) h
      refine ⟨k + 1, ?_, ?_⟩
      · simp only [IndexFunc.loop, hx', Bool.false_eq_true, if_false, hk]
        congr 1
        omega
      · simpa using hget

theorem sameName_pred (a : File) :
    (fun header2 : File => a.Name == header2.Name) = (fun h => decide (h.Name = a.Name)) := by
  funext h
  by_cases hn : h.Name = a.Name
  · simp [hn]
  · have hn' : ¬ a.Name = h.Name := fun e => hn e.symm
    simp [hn, hn']

theorem IndexFunc_of_firstNamed_none (B : List File) (a : File)
    (h : firstNamed B a.Name = none) :
    IndexFunc B (fun header2 => a.Name == header2.Name) = -1 := by
  unfold firstNamed at h
  rw [← sameName_pred] at h
  exact IndexFunc.loop_of_find_none _ B 0 h

theorem IndexFunc_of_firstNamed_some (B : List File) (a b : File)
    (h : firstNamed B a.Name = some b) :
    ∃ k : Nat, IndexFunc B (fun header2 => a.Name == header2.Name) = (k : Int)
      ∧ B[k]? = some b := by
  unfold firstNamed at h
  rw [← sameName_pred] at h
  obtain ⟨k, hk, hget⟩ := IndexFunc.loop_of_find_some _ B 0 b h
  exact ⟨k, by simpa [IndexFunc] using hk, hget⟩

/-- The indexing `headers2[index2]` in `diffZipHeader` never goes out of range. -/
theorem index_in_range (B : List File) (a : File)
    (h : ¬ IndexFunc B (fun header2 => a.Name == header2.Name) < 0) :
    ∃ b, B[(IndexFunc B (fun header2 => a.Name == header2.Name)).toNat]? = some b := by
  cases hf : firstNamed B a.Name with
  | none =>
    rw [IndexFunc_of_firstNamed_none B a hf] at h
    exact absurd (by decide) h
  | some b =>
    obtain ⟨k, hk, hget⟩ := IndexFunc_of_firstNamed_some B a b hf
    exact ⟨b, by simpa [hk] using hget⟩

theorem firstNamed_name (B : List File) (n : String) (b : File)
    (h : firstNamed B n = some b) : b.Name = n := by
  have := List.find?_some h
  simpa using this

theorem firstNamed_mem (B : List File) (n : String) (b : File)
    (h : firstNamed B n = some b) : b ∈ B :=
  List.mem_of_find?_eq_some h

theorem firstNamed_eq_none_iff (B : List File) (n : String) :
    firstNamed B n = none ↔ ∀ b ∈ B, b.Name ≠ n := by
  simp [firstNamed, List.find?_eq_none]

/-! ## One step of `diffZipHeader` -/

theorem diffZipHeader_nil (sha256 : List Nat → List (Fin 256)) (B : List File) :
    diffZipHeader sha256 [] B = (none, []) := rfl

theorem diffZipHeader_cons_missing (sha256 : List Nat → List (Fin 256)) (a : File)
    (rest B : List File) (h : firstNamed B a.Name = none) :
    diffZipHeader sha256 (a :: rest) B = (some (MissingEntry a.Name), []) := by
  simp [diffZipHeader, IndexFunc_of_firstNamed_none B a h, MissingEntry]

theorem diffZipHeader_cons_rejected (sha256 : List Nat → List (Fin 256)) (a b : File)
    (rest B : List File) (err : String) (h : firstNamed B a.Name = some b)
    (hc : (compareFiles sha256 a b).1 = some err) :
    diffZipHeader sha256 (a :: rest) B
      = (some (wrapped a.Name err), (compareFiles sha256 a b).2) := by
  obtain ⟨k, hk, hget⟩ := IndexFunc_of_firstNamed_some B a b h
  have hnot : ¬ ((k : Int) < 0) := by omega
  rcases hcf : compareFiles sha256 a b with ⟨r, t⟩
  rw [hcf] at hc
  simp only at hc
  subst hc
  simp [diffZipHeader, hk, hnot, hget, hcf, wrapped]

theorem diffZipHeader_cons_accepted (sha256 : List Nat → List (Fin 256)) (a b : File)
    (rest B : List File) (h : firstNamed B a.Name = some b)
    (hc : (compareFiles sha256 a b).1 = none) :
    diffZipHeader sha256 (a :: rest) B
      = ((diffZipHeader sha256 rest B).1,
         (compareFiles sha256 a b).2 ++ (diffZipHeader sha256 rest B).2) := by
  obtain ⟨k, hk, hget⟩ := IndexFunc_of_firstNamed_some B a b h
  have hnot : ¬ ((k : Int) < 0) := by omega
  rcases hcf : compareFiles sha256 a b with ⟨r, t⟩
  rw [hcf] at hc
  simp only at hc
  subst hc
  simp [diffZipHeader, hk, hnot, hget, hcf]

theorem firstNamed_eq_some_iff (B : List File) (n : String) (b : File) :
    firstNamed B n = some b ↔
      ∃ pre post, B = pre ++ b :: post ∧ (∀ x ∈ pre, x.Name ≠ n) ∧ b.Name = n := by
  unfold firstNamed
  rw [List.find?_eq_some]
  constructor
  · rintro ⟨hb, pre, post, hB, hpre⟩
    refine ⟨pre, post, hB, ?_, by simpa using hb⟩
    intro x hx
    simpa using hpre x hx
  · rintro ⟨pre, post, hB, hpre, hb⟩
    refine ⟨by simpa using hb, pre, post, hB, ?_⟩
    intro x hx
    simpa using hpre x hx

/-- The diff succeeds exactly when every entry of the first archive is accepted
against the first entry of the second archive with its name. -/
theorem diffZipHeader_ok_iff_firstNamed (sha256 : List Nat → List (Fin 256)) (A B : List File) :
    (diffZipHeader sha256 A B).1 = none ↔
      ∀ a ∈ A, ∃ b, firstNamed B a.Name = some b ∧ (compareFiles sha256 a b).1 = none := by
  induction A with
  | nil => simp [diffZipHeader_nil]
  | cons a rest ih =>
    cases hf : firstNamed B a.Name with
    | none =>
      rw [diffZipHeader_cons_missing sha256 a rest B hf]
      simp [hf]
    | some b =>
      cases hc : (compareFiles sha256 a b).1 with
      | some err =>
        rw [diffZipHeader_cons_rejected sha256 a b rest B err hf hc]
        simp [hf, hc]
      | none =>
        rw [diffZipHeader_cons_accepted sha256 a b rest B hf hc]
        simp [hf, hc, ih]

/-- When the entries of a prefix are all accepted, the diff of the whole is decided
by the rest, after the events of the prefix. -/
theorem diffZipHeader_append_of_ok (sha256 : List Nat → List (Fin 256)) (A1 A2 B : List File)
    (h : (diffZipHeader sha256 A1 B).1 = none) :
    diffZipHeader sha256 (A1 ++ A2) B
      = ((diffZipHeader sha256 A2 B).1,
         (diffZipHeader sha256 A1 B).2 ++ (diffZipHeader sha256 A2 B).2) := by
  induction A1 with
  | nil => simp [diffZipHeader_nil]
  | cons a rest ih =>
    cases hf : firstNamed B a.Name with
    | none =>
      rw [diffZipHeader_cons_missing sha256 a rest B hf] at h
      simp at h
    | some b =>
      cases hc : (compareFiles sha256 a b).1 with
      | some err =>
        rw [diffZipHeader_cons_rejected sha256 a b rest B err hf hc] at h
        simp at h
      | none =>
        rw [diffZipHeader_cons_accepted sha256 a b rest B hf hc] at h
        rw [List.cons_append, diffZipHeader_cons_accepted sha256 a b (rest ++ A2) B hf hc,
          diffZipHeader_cons_accepted sha256 a b rest B hf hc, ih h]
        simp

/-- The diff depends on the second archive only through the first entry found
for each name of the first archive. -/
theorem diffZipHeader_congr_lookup (sha256 : List Nat → List (Fin 256)) (A B B2 : List File)
    (h : ∀ a ∈ A, firstNamed B2 a.Name = firstNamed B a.Name) :
    diffZipHeader sha256 A B2 = diffZipHeader sha256 A B := by
  induction A with
  | nil => simp [diffZipHeader_nil]
  | cons a rest ih =>
    have ha := h a (List.mem_cons_self a rest)
    have ih2 := ih (fun x hx => h x (List.mem_cons_of_mem a hx))
    cases hf : firstNamed B a.Name with
    | none =>
      rw [hf] at ha
      rw [diffZipHeader_cons_missing sha256 a rest B hf,
        diffZipHeader_cons_missing sha256 a rest B2 ha]
    | some b =>
      rw [hf] at ha
      cases hc : (compareFiles sha256 a b).1 with
      | some err =>
        rw [diffZipHeader_cons_rejected sha256 a b rest B err hf hc,
          diffZipHeader_cons_rejected sha256 a b rest B2 err ha hc]
      | none =>
        rw [diffZipHeader_cons_accepted sha256 a b rest B hf hc,
          diffZipHeader_cons_accepted sha256 a b rest B2 ha hc, ih2]

theorem firstNamed_inserted (P : File → Prop) (B B2 : List File) (n : String)
    (h : Inserted P B B2) (hP : ∀ x, P x → x.Name ≠ n) :
    firstNamed B2 n = firstNamed B n := by
  induction h with
  | done => rfl
  | keep b _ ih =>
    unfold firstNamed at ih ⊢
    simp only [List.find?]
    rw [ih]
  | extra x hx _ ih =>
    unfold firstNamed at ih ⊢
    have hne : decide (x.Name = n) = false := by simpa using hP x hx
    simp only [List.find?, hne]
    exact ih

/-! ## The comparisons of `compareFiles` -/

theorem bytesEqual_iff (xs ys : List Nat) : bytesEqual xs ys = true ↔ xs = ys := by
  induction xs generalizing ys with
  | nil => cases ys <;> simp [bytesEqual]
  | cons x xs ih => cases ys <;> simp [bytesEqual, ih]

theorem bytesEqual_self (xs : List Nat) : bytesEqual xs xs = true :=
  (bytesEqual_iff xs xs).2 rfl

theorem Time.Equal_iff (t u : Time) : t.Equal u = true ↔ t.sameInstant u := by
  simp [Time.Equal, Time.sameInstant]

theorem Field.mem_order (fld : Field) : fld ∈ Field.order := by
  cases fld <;> simp [Field.order]

/-- The header comparisons of `compareFiles` report the first field, in the fixed
order, in which the two entries differ; when there is none the two checksums
decide. -/
theorem compareFiles_eq (sha256 : List Nat → List (Fin 256)) (a b : File) :
    compareFiles sha256 a b =
      match Field.order.find? (fun fld => decide (¬ fld.same a b)) with
      | some fld => (some (MetadataMismatch a.Name fld), [])
      | none =>
        match zipChecksum sha256 a with
        | (.error err, t1) =>
          (some ("file " ++ a.Name ++ " cannot be opened from file 1: " ++ err), t1)
        | (.ok checksum1, t1) =>
          match zipChecksum sha256 b with
          | (.error err, t2) =>
            (some ("file " ++ a.Name ++ " cannot be opened from file 1: " ++ err), t1 ++ t2)
          | (.ok checksum2, t2) =>
            if checksum1 ≠ checksum2 then
              (some (ContentMismatch a.Name checksum1 checksum2), t1 ++ t2)
            else
              (none, t1 ++ t2) := by
  unfold compareFiles
  by_cases h1 : a.UncompressedSize64 = b.UncompressedSize64
  case neg =>
    simp [Field.order, List.find?, Field.same, MetadataMismatch, Field.phrase,
      String.append_assoc, bytesEqual_self, h1]
  by_cases h2 : a.Modified.sameInstant b.Modified
  case neg =>
    have e2 : a.Modified.Equal b.Modified = false := by
      cases hc : a.Modified.Equal b.Modified
      · rfl
      · exact absurd ((Time.Equal_iff a.Modified b.Modified).1 hc) h2
    simp [Field.order, List.find?, Field.same, MetadataMismatch, Field.phrase,
      String.append_assoc, bytesEqual_self, h1, h2, e2]
  have e2 : a.Modified.Equal b.Modified = true := (Time.Equal_iff a.Modified b.Modified).2 h2
  by_cases h3 : a.Method = b.Method
  case neg =>
    simp [Field.order, List.find?, Field.same, MetadataMismatch, Field.phrase,
      String.append_assoc, bytesEqual_self, h1, h2, e2, h3]
  by_cases h4 : a.Comment = b.Comment
  case neg =>
    simp [Field.order, List.find?, Field.same, MetadataMismatch, Field.phrase,
      String.append_assoc, bytesEqual_self, h1, h2, e2, h3, h4]
  by_cases h5 : a.Extra = b.Extra
  case neg =>
    have e5 : bytesEqual a.Extra b.Extra = false := by
      cases hc : bytesEqual a.Extra b.Extra
      · rfl
      · exact absurd ((bytesEqual_iff a.Extra b.Extra).1 hc) h5
    simp [Field.order, List.find?, Field.same, MetadataMismatch, Field.phrase,
      String.append_assoc, bytesEqual_self, h1, h2, e2, h3, h4, h5, e5]
  have e5 : bytesEqual a.Extra b.Extra = true := (bytesEqual_iff a.Extra b.Extra).2 h5
  by_cases h6 : a.NonUTF8 = b.NonUTF8
  case neg =>
    simp [Field.order, List.find?, Field.same, MetadataMismatch, Field.phrase,
      String.append_assoc, bytesEqual_self, h1, h2, e2, h3, h4, h5, e5, h6]
  by_cases h7 : a.CreatorVersion = b.CreatorVersion
  case neg =>
    simp [Field.order, List.find?, Field.same, MetadataMismatch, Field.phrase,
      String.append_assoc, bytesEqual_self, h1, h2, e2, h3, h4, h5, e5, h6, h7]
  by_cases h8 : a.ReaderVersion = b.ReaderVersion
  case neg =>
    simp [Field.order, List.find?, Field.same, MetadataMismatch, Field.phrase,
      String.append_assoc, bytesEqual_self, h1, h2, e2, h3, h4, h5, e5, h6, h7, h8]
  by_cases h9 : a.Flags = b.Flags
  case neg =>
    simp [Field.order, List.find?, Field.same, MetadataMismatch, Field.phrase,
      String.append_assoc, bytesEqual_self, h1, h2, e2, h3, h4, h5, e5, h6, h7, h8, h9]
  by_cases h10 : a.CRC32 = b.CRC32
  case neg =>
    simp [Field.order, List.find?, Field.same, MetadataMismatch, Field.phrase,
      String.append_assoc, bytesEqual_self, h1, h2, e2, h3, h4, h5, e5, h6, h7, h8, h9, h10]
  by_cases h11 : a.CompressedSize64 = b.CompressedSize64
  case neg =>
    simp [Field.order, List.find?, Field.same, MetadataMismatch, Field.phrase,
      String.append_assoc, bytesEqual_self, h1, h2, e2, h3, h4, h5, e5, h6, h7, h8, h9, h10, h11]
  by_cases h12 : a.ExternalAttrs = b.ExternalAttrs
  case neg =>
    simp [Field.order, List.find?, Field.same, MetadataMismatch, Field.phrase,
      String.append_assoc, bytesEqual_self, h1, h2, e2, h3, h4, h5, e5, h6, h7, h8, h9, h10, h11, h12]
  simp [Field.order, List.find?, Field.same, ContentMismatch, String.append_assoc, bytesEqual_self,
    h1, h2, e2, h3, h4, h5, e5, h6, h7, h8, h9, h10, h11, h12]

theorem first_difference_none_iff (a b : File) :
    Field.order.find? (fun fld => decide (¬ fld.same a b)) = none ↔ ∀ fld : Field, fld.same a b := by
  rw [List.find?_eq_none]
  constructor
  · intro h fld
    simpa using h fld (Field.mem_order fld)
  · intro h fld _
    simpa using h fld

theorem compareFiles_of_first_difference (sha256 : List Nat → List (Fin 256)) (a b : File)
    (fld : Field) (h : Field.order.find? (fun g => decide (¬ g.same a b)) = some fld) :
    compareFiles sha256 a b = (some (MetadataMismatch a.Name fld), []) := by
  rw [compareFiles_eq, h]

/-- With all header fields the same and both streams read to the end, the two
checksums decide; the four stream events are the same either way. -/
theorem compareFiles_of_read (sha256 : List Nat → List (Fin 256)) (a b : File) (d1 d2 : List Nat)
    (h : ∀ fld : Field, fld.same a b) (h1 : a.stream = .bytes d1) (h2 : b.stream = .bytes d2) :
    compareFiles sha256 a b =
      (if EncodeToString (sha256 d1) = EncodeToString (sha256 d2) then none
        else some (ContentMismatch a.Name (EncodeToString (sha256 d1))
          (EncodeToString (sha256 d2))),
       [.opened a, .closed a, .opened b, .closed b]) := by
  rw [compareFiles_eq, (first_difference_none_iff a b).2 h]
  simp only [zipChecksum, h1, h2]
  split_ifs <;> simp_all

theorem compareFiles_ok_iff (sha256 : List Nat → List (Fin 256)) (a b : File) :
    (compareFiles sha256 a b).1 = none ↔
      (∀ fld : Field, fld.same a b) ∧ ∃ d1 d2, a.stream = .bytes d1 ∧ b.stream = .bytes d2
        ∧ EncodeToString (sha256 d1) = EncodeToString (sha256 d2) := by
  cases hf : Field.order.find? (fun fld => decide (¬ fld.same a b)) with
  | some fld =>
    rw [compareFiles_of_first_difference sha256 a b fld hf]
    have hne : ¬ ∀ g : Field, g.same a b := by
      intro hall
      rw [(first_difference_none_iff a b).2 hall] at hf
      exact Option.noConfusion hf
    simp [hne]
  | none =>
    have hall := (first_difference_none_iff a b).1 hf
    rw [compareFiles_eq, hf]
    simp only [zipChecksum]
    cases h1 : a.stream <;> cases h2 : b.stream <;> simp [hall]
    split_ifs with hd <;> simp [hd]

/-- An entry whose stream can be read is accepted against itself. -/
theorem compareFiles_self (sha256 : List Nat → List (Fin 256)) (a : File) (d : List Nat)
    (h : a.stream = .bytes d) : (compareFiles sha256 a a).1 = none := by
  rw [compareFiles_ok_iff]
  refine ⟨?_, d, d, h, h, rfl⟩
  intro fld
  cases fld <;> simp [Field.same, Time.sameInstant]

theorem Field.same_stream (fld : Field) (a b : File) (s1 s2 : Stream) :
    fld.same { a with stream := s1 } { b with stream := s2 } ↔ fld.same a b := by
  cases fld <;> exact Iff.rfl

theorem find?_of_unique {α : Type} (p : α → Bool) (l : List α) (x : α) (hx : x ∈ l)
    (hp : p x = true) (hu : ∀ y ∈ l, p y = true → y = x) : l.find? p = some x := by
  induction l with
  | nil => simp at hx
  | cons y ys ih =>
    by_cases hy : p y = true
    · have hyx := hu y (List.mem_cons_self y ys) hy
      subst hyx
      simp [List.find?, hy]
    · have hy' : p y = false := by simpa using hy
      have hxy : x ∈ ys := by
        rcases List.mem_cons.1 hx with h | h
        · rw [h] at hp
          exact absurd hp hy
        · exact h
      simp only [List.find?, hy']
      exact ih hxy (fun z hz => hu z (List.mem_cons_of_mem y hz))

theorem Field.phrase_injective (f g : Field) (h : f.phrase = g.phrase) : f = g := by
  cases f <;> cases g <;> first | rfl | exact absurd h (by decide)

theorem MetadataMismatch_names_field (name : String) (f g : Field)
    (h : MetadataMismatch name f = MetadataMismatch name g) : f = g := by
  apply Field.phrase_injective
  unfold MetadataMismatch at h
  have h2 := congrArg String.data h
  simp only [String.data_append, List.append_cancel_left_eq] at h2
  exact String.ext h2

/-! ## The claims about `diffZipHeader` -/

/-- C1: `diffZipHeader A B` returns no error if and only if every entry `a` of `A`
has an entry of the same name in `B` and `compareFiles` accepts `a` against the
first such entry `b` in stored order (`B = pre ++ b :: post` with no entry of
that name in `pre`). -/
theorem diffZipHeader_succeeds_iff (sha256 : List Nat → List (Fin 256)) (A B : List File) :
    (diffZipHeader sha256 A B).1 = none ↔
      ∀ a ∈ A, ∃ pre b post, B = pre ++ b :: post ∧ (∀ x ∈ pre, x.Name ≠ a.Name)
        ∧ b.Name = a.Name ∧ (compareFiles sha256 a b).1 = none := by
  rw [diffZipHeader_ok_iff_firstNamed]
  constructor
  · intro h a ha
    obtain ⟨b, hb, hc⟩ := h a ha
    obtain ⟨pre, post, hB, hpre, hn⟩ := (firstNamed_eq_some_iff B a.Name b).1 hb
    exact ⟨pre, b, post, hB, hpre, hn, hc⟩
  · intro h a ha
    obtain ⟨pre, b, post, hB, hpre, hn, hc⟩ := h a ha
    exact ⟨b, (firstNamed_eq_some_iff B a.Name b).2 ⟨pre, post, hB, hpre, hn⟩, hc⟩

/-- C2, as stated, fails: `y.txt` of the first archive is absent from the second,
yet the diff reports the size mismatch of the earlier entry `x.txt`, not the
missing entry. -/
theorem missing_entry_masked_by_earlier_failure :
    (∃ a ∈ [helloEntry, otherEntry], a.Name = "y.txt")
      ∧ (∀ b ∈ [longerEntry], b.Name ≠ "y.txt")
      ∧ ∀ sha256 : List Nat → List (Fin 256),
          (diffZipHeader sha256 [helloEntry, otherEntry] [longerEntry]).1
              = some "file x.txt is different: file x.txt has different size"
            ∧ (diffZipHeader sha256 [helloEntry, otherEntry] [longerEntry]).1
              ≠ some (MissingEntry "y.txt") := by
  refine ⟨by decide, by decide, fun sha256 => ?_⟩
  have h : (diffZipHeader sha256 [helloEntry, otherEntry] [longerEntry]).1
      = some "file x.txt is different: file x.txt has different size" := rfl
  exact ⟨h, by rw [h]; decide⟩

/-- C2 (amended): if `A` has an entry named `n` and `B` has none, `diffZipHeader A B`
fails; the error is `MissingEntry(n)` whenever every entry of `A` before that entry
is accepted against its first match in `B`, whatever the entries after it. -/
theorem missing_entry_reported (sha256 : List Nat → List (Fin 256)) (A B : List File) (n : String)
    (hA : ∃ a ∈ A, a.Name = n) (hB : ∀ b ∈ B, b.Name ≠ n) :
    (∃ err, (diffZipHeader sha256 A B).1 = some err)
      ∧ ∀ A1 a A2, A = A1 ++ a :: A2 → a.Name = n →
          (∀ x ∈ A1, ∃ b, firstNamed B x.Name = some b ∧ (compareFiles sha256 x b).1 = none) →
          (diffZipHeader sha256 A B).1 = some (MissingEntry n) := by
  constructor
  · cases hr : (diffZipHeader sha256 A B).1 with
    | some err => exact ⟨err, rfl⟩
    | none =>
      obtain ⟨a, ha, hn⟩ := hA
      obtain ⟨b, hb, _⟩ := (diffZipHeader_ok_iff_firstNamed sha256 A B).1 hr a ha
      have hbn := firstNamed_name B a.Name b hb
      exact absurd (hbn.trans hn) (hB b (firstNamed_mem B a.Name b hb))
  · intro A1 a A2 hsplit hn hA1
    have hok := (diffZipHeader_ok_iff_firstNamed sha256 A1 B).2 hA1
    have hnone : firstNamed B a.Name = none := by
      rw [firstNamed_eq_none_iff, hn]
      exact hB
    rw [hsplit, diffZipHeader_append_of_ok sha256 A1 (a :: A2) B hok,
      diffZipHeader_cons_missing sha256 a A2 B hnone, hn]

theorem missing_entry_reported_witness :
    (∃ a ∈ [helloEntry, otherEntry], a.Name = "y.txt")
      ∧ (∀ b ∈ [helloEntry], b.Name ≠ "y.txt")
      ∧ ∀ sha256 : List Nat → List (Fin 256),
          (∃ err, (diffZipHeader sha256 [helloEntry, otherEntry] [helloEntry]).1 = some err)
          ∧ ∀ A1 a A2, [helloEntry, otherEntry] = A1 ++ a :: A2 → a.Name = "y.txt" →
              (∀ x ∈ A1, ∃ b, firstNamed [helloEntry] x.Name = some b
                ∧ (compareFiles sha256 x b).1 = none) →
              (diffZipHeader sha256 [helloEntry, otherEntry] [helloEntry]).1
                = some (MissingEntry "y.txt") :=
  ⟨by decide, by decide, fun sha256 =>
    missing_entry_reported sha256 [helloEntry, otherEntry] [helloEntry] "y.txt"
      (by decide) (by decide)⟩

/-- C3: fail-fast.  When every entry of `A1` is accepted against its first match in
`B` and the entry `a` has no match, or its first match is rejected, then for
every `A2` the diff of `A1 ++ a :: A2` returns the one failure of `a` (the missing
entry, or the error of `compareFiles` wrapped with the name of `a`), and the
events are those of `A1` and of the comparison of `a`: nothing of `A2` is
looked at. -/
theorem fail_fast (sha256 : List Nat → List (Fin 256)) (A1 : List File) (a : File) (B : List File)
    (hA1 : ∀ x ∈ A1, ∃ b, firstNamed B x.Name = some b ∧ (compareFiles sha256 x b).1 = none) :
    (firstNamed B a.Name = none →
        ∀ A2, diffZipHeader sha256 (A1 ++ a :: A2) B
          = (some (MissingEntry a.Name), (diffZipHeader sha256 A1 B).2))
      ∧ (∀ b err, firstNamed B a.Name = some b → (compareFiles sha256 a b).1 = some err →
        ∀ A2, diffZipHeader sha256 (A1 ++ a :: A2) B
          = (some (wrapped a.Name err),
             (diffZipHeader sha256 A1 B).2 ++ (compareFiles sha256 a b).2)) := by
  have hok := (diffZipHeader_ok_iff_firstNamed sha256 A1 B).2 hA1
  constructor
  · intro hnone A2
    rw [diffZipHeader_append_of_ok sha256 A1 (a :: A2) B hok,
      diffZipHeader_cons_missing sha256 a A2 B hnone]
    simp
  · intro b err hb hc A2
    rw [diffZipHeader_append_of_ok sha256 A1 (a :: A2) B hok,
      diffZipHeader_cons_rejected sha256 a b A2 B err hb hc]

theorem fail_fast_witness :
    (∀ sha256 : List Nat → List (Fin 256), ∀ x ∈ [helloEntry],
        ∃ b, firstNamed [helloEntry] x.Name = some b ∧ (compareFiles sha256 x b).1 = none)
      ∧ firstNamed [helloEntry] otherEntry.Name = none
      ∧ ∀ (sha256 : List Nat → List (Fin 256)) (A2 : List File),
          diffZipHeader sha256 ([helloEntry] ++ otherEntry :: A2) [helloEntry]
            = (some (MissingEntry otherEntry.Name),
               (diffZipHeader sha256 [helloEntry] [helloEntry]).2) := by
  have hA1 : ∀ sha256 : List Nat → List (Fin 256), ∀ x ∈ [helloEntry],
      ∃ b, firstNamed [helloEntry] x.Name = some b ∧ (compareFiles sha256 x b).1 = none := by
    intro sha256 x hx
    rw [List.mem_singleton] at hx
    subst hx
    exact ⟨helloEntry, by decide, compareFiles_self sha256 helloEntry _ rfl⟩
  exact ⟨hA1, by decide, fun sha256 A2 =>
    (fail_fast sha256 [helloEntry] otherEntry [helloEntry] (hA1 sha256)).1 (by decide) A2⟩

/-- C4: one-directional containment.  Inserting into `B`, at any positions, entries
whose names do not occur in `A` changes neither the result nor the events of
`diffZipHeader A B`. -/
theorem extra_entries_ignored (sha256 : List Nat → List (Fin 256)) (A B B2 : List File)
    (h : Inserted (fun x => ∀ a ∈ A, a.Name ≠ x.Name) B B2) :
    diffZipHeader sha256 A B2 = diffZipHeader sha256 A B := by
  apply diffZipHeader_congr_lookup
  intro a ha
  exact firstNamed_inserted _ B B2 a.Name h (fun x hx hn => hx a ha hn.symm)

theorem extra_entries_ignored_witness :
    Inserted (fun x => ∀ a ∈ [helloEntry], a.Name ≠ x.Name) [helloEntry] [helloEntry, otherEntry]
      ∧ ∀ sha256 : List Nat → List (Fin 256),
          diffZipHeader sha256 [helloEntry] [helloEntry, otherEntry]
            = diffZipHeader sha256 [helloEntry] [helloEntry] :=
  ⟨Inserted.keep helloEntry (Inserted.extra otherEntry (by decide) Inserted.done),
   fun sha256 => extra_entries_ignored sha256 [helloEntry] [helloEntry] [helloEntry, otherEntry]
     (Inserted.keep helloEntry (Inserted.extra otherEntry (by decide) Inserted.done))⟩

/-- C5, as stated, fails: an archive with two readable entries of the same name and
different sizes is rejected against its identical copy, because the second
entry is compared with the first entry of that name. -/
theorem duplicate_names_break_reflexivity :
    (∀ a ∈ [helloEntry, longerEntry], ∃ d, a.stream = .bytes d)
      ∧ ∀ sha256 : List Nat → List (Fin 256),
          (diffZipHeader sha256 [helloEntry, longerEntry] [helloEntry, longerEntry]).1
            = some "file x.txt is different: file x.txt has different size" := by
  constructor
  · intro a ha
    simp only [List.mem_cons, List.mem_singleton, List.not_mem_nil, or_false] at ha
    rcases ha with rfl | rfl
    · exact ⟨_, rfl⟩
    · exact ⟨_, rfl⟩
  · intro sha256
    rw [diffZipHeader_cons_accepted sha256 helloEntry helloEntry [longerEntry]
        [helloEntry, longerEntry] (by decide) (compareFiles_self sha256 helloEntry _ rfl)]
    rfl

/-- C5 (amended): reflexivity.  For an archive `A` whose content streams can all be
read and in which entries that share a name are identical (in particular when
the names are distinct), `diffZipHeader A A` succeeds. -/
theorem reflexive_when_same_named_agree (sha256 : List Nat → List (Fin 256)) (A : List File)
    (hread : ∀ a ∈ A, ∃ d, a.stream = .bytes d)
    (hdup : ∀ a ∈ A, ∀ a2 ∈ A, a.Name = a2.Name → a = a2) :
    (diffZipHeader sha256 A A).1 = none := by
  rw [diffZipHeader_ok_iff_firstNamed]
  intro a ha
  cases hf : firstNamed A a.Name with
  | none => exact absurd rfl ((firstNamed_eq_none_iff A a.Name).1 hf a ha)
  | some b =>
    have hb := hdup a ha b (firstNamed_mem A a.Name b hf) (firstNamed_name A a.Name b hf).symm
    subst hb
    obtain ⟨d, hd⟩ := hread a ha
    exact ⟨a, rfl, compareFiles_self sha256 a d hd⟩

theorem reflexive_when_same_named_agree_witness :
    (∀ a ∈ [helloEntry, otherEntry], ∃ d, a.stream = .bytes d)
      ∧ (∀ a ∈ [helloEntry, otherEntry], ∀ a2 ∈ [helloEntry, otherEntry],
          a.Name = a2.Name → a = a2)
      ∧ ∀ sha256 : List Nat → List (Fin 256),
          (diffZipHeader sha256 [helloEntry, otherEntry] [helloEntry, otherEntry]).1 = none := by
  have hread : ∀ a ∈ [helloEntry, otherEntry], ∃ d, a.stream = .bytes d := by
    intro a ha
    simp only [List.mem_cons, List.mem_singleton, List.not_mem_nil, or_false] at ha
    rcases ha with rfl | rfl
    · exact ⟨_, rfl⟩
    · exact ⟨_, rfl⟩
  have hdup : ∀ a ∈ [helloEntry, otherEntry], ∀ a2 ∈ [helloEntry, otherEntry],
      a.Name = a2.Name → a = a2 := by decide
  exact ⟨hread, hdup, fun sha256 =>
    reflexive_when_same_named_agree sha256 [helloEntry, otherEntry] hread hdup⟩

/-- C6, as stated, fails: `x.txt` of the first archive occurs unchanged in the second
archive, but behind another entry of the same name with a different size, and
the diff compares it with that first entry. -/
theorem later_counterpart_not_used :
    (∀ a ∈ [helloEntry], a ∈ [longerEntry, helloEntry] ∧ ∃ d, a.stream = .bytes d)
      ∧ ∀ sha256 : List Nat → List (Fin 256),
          (diffZipHeader sha256 [helloEntry] [longerEntry, helloEntry]).1
            = some "file x.txt is different: file x.txt has different size" := by
  constructor
  · intro a ha
    rw [List.mem_singleton] at ha
    subst ha
    exact ⟨by decide, _, rfl⟩
  · intro sha256
    rfl

/-- C6 (amended): if for every entry of `A` the first entry of `B` with the same name
has the same values in all twelve compared fields and the same readable
content, then `diffZipHeader A B` succeeds. -/
theorem identical_first_counterparts_succeed (sha256 : List Nat → List (Fin 256)) (A B : List File)
    (h : ∀ a ∈ A, ∃ b, firstNamed B a.Name = some b ∧ (∀ fld : Field, fld.same a b)
      ∧ ∃ d, a.stream = .bytes d ∧ b.stream = .bytes d) :
    (diffZipHeader sha256 A B).1 = none := by
  rw [diffZipHeader_ok_iff_firstNamed]
  intro a ha
  obtain ⟨b, hb, hsame, d, hd1, hd2⟩ := h a ha
  exact ⟨b, hb, (compareFiles_ok_iff sha256 a b).2 ⟨hsame, d, d, hd1, hd2, rfl⟩⟩

theorem identical_first_counterparts_succeed_witness :
    (∀ a ∈ [helloEntry], ∃ b, firstNamed [helloEntry, longerEntry] a.Name = some b
        ∧ (∀ fld : Field, fld.same a b) ∧ ∃ d, a.stream = .bytes d ∧ b.stream = .bytes d)
      ∧ ∀ sha256 : List Nat → List (Fin 256),
          (diffZipHeader sha256 [helloEntry] [helloEntry, longerEntry]).1 = none := by
  have h : ∀ a ∈ [helloEntry], ∃ b, firstNamed [helloEntry, longerEntry] a.Name = some b
      ∧ (∀ fld : Field, fld.same a b) ∧ ∃ d, a.stream = .bytes d ∧ b.stream = .bytes d := by
    intro a ha
    rw [List.mem_singleton] at ha
    subst ha
    refine ⟨helloEntry, by decide, ?_, _, rfl, rfl⟩
    intro fld
    cases fld <;> decide
  exact ⟨h, fun sha256 =>
    identical_first_counterparts_succeed sha256 [helloEntry] [helloEntry, longerEntry] h⟩

/-! ## The claims about `compareFiles` -/

/-- C7: when at least one compared header field differs, `compareFiles` returns one
`MetadataMismatch` error (and touches no stream); the field it names is the
first one, in the fixed order `Field.order`, in which the entries differ, and
the error text names no other field. -/
theorem first_differing_field_reported (sha256 : List Nat → List (Fin 256)) (a b : File)
    (h : ∃ fld : Field, ¬ fld.same a b) :
    ∃ fld pre post, Field.order = pre ++ fld :: post ∧ (∀ g ∈ pre, g.same a b)
      ∧ ¬ fld.same a b
      ∧ compareFiles sha256 a b = (some (MetadataMismatch a.Name fld), [])
      ∧ ∀ g, MetadataMismatch a.Name g = MetadataMismatch a.Name fld → g = fld := by
  cases hf : Field.order.find? (fun g => decide (¬ g.same a b)) with
  | none =>
    obtain ⟨fld, hfld⟩ := h
    exact absurd ((first_difference_none_iff a b).1 hf fld) hfld
  | some fld =>
    obtain ⟨hp, pre, post, hsplit, hpre⟩ := List.find?_eq_some.1 hf
    refine ⟨fld, pre, post, hsplit, ?_, by simpa using hp,
      compareFiles_of_first_difference sha256 a b fld hf,
      fun g hg => MetadataMismatch_names_field a.Name g fld hg⟩
    intro g hg
    simpa using hpre g hg

theorem first_differing_field_reported_witness :
    (∃ fld : Field, ¬ fld.same helloEntry longerEntry)
      ∧ ∀ sha256 : List Nat → List (Fin 256),
          ∃ fld pre post, Field.order = pre ++ fld :: post
            ∧ (∀ g ∈ pre, g.same helloEntry longerEntry)
            ∧ ¬ fld.same helloEntry longerEntry
            ∧ compareFiles sha256 helloEntry longerEntry
                = (some (MetadataMismatch helloEntry.Name fld), [])
            ∧ ∀ g, MetadataMismatch helloEntry.Name g = MetadataMismatch helloEntry.Name fld
                → g = fld :=
  ⟨⟨.uncompressedSize, by decide⟩, fun sha256 =>
    first_differing_field_reported sha256 helloEntry longerEntry ⟨.uncompressedSize, by decide⟩⟩

/-- C8, as stated, fails: `x.txt` of the first archive and its match in the second
differ in the uncompressed size only, yet the diff reports the missing `y.txt`
that comes before it, not the size mismatch. -/
theorem earlier_failure_masks_field_mismatch :
    firstNamed [longerEntry] helloEntry.Name = some longerEntry
      ∧ ¬ Field.same .uncompressedSize helloEntry longerEntry
      ∧ (∀ g : Field, g ≠ .uncompressedSize → g.same helloEntry longerEntry)
      ∧ ∀ sha256 : List Nat → List (Fin 256),
          (diffZipHeader sha256 [otherEntry, helloEntry] [longerEntry]).1
              = some "file y.txt not found in the second zip"
            ∧ (diffZipHeader sha256 [otherEntry, helloEntry] [longerEntry]).1
              ≠ some (wrapped helloEntry.Name
                  (MetadataMismatch helloEntry.Name .uncompressedSize)) := by
  refine ⟨by decide, by decide, ?_, fun sha256 => ?_⟩
  · intro g hg
    cases g <;> first | exact absurd rfl hg | decide
  · have h : (diffZipHeader sha256 [otherEntry, helloEntry] [longerEntry]).1
        = some "file y.txt not found in the second zip" := rfl
    exact ⟨h, by rw [h]; decide⟩

/-- C8 (amended): for a matched pair `a`, `b` (with `b` the first entry of `B` named like
`a`) that differs in exactly one compared field, when every entry before `a` is
accepted against its first match, `diffZipHeader` fails with the
`MetadataMismatch` naming that field, wrapped with the entry name, and adds no
stream event to those of the earlier entries; the comparison of the pair gives
that error with no stream event for every behaviour `s1`, `s2` of the two content
streams, and so does the diff of the pair alone. -/
theorem single_field_mismatch_skips_content (sha256 : List Nat → List (Fin 256))
    (A1 : List File) (a : File) (A2 B : List File) (b : File) (fld : Field)
    (hA1 : ∀ x ∈ A1, ∃ y, firstNamed B x.Name = some y ∧ (compareFiles sha256 x y).1 = none)
    (hb : firstNamed B a.Name = some b)
    (hfld : ¬ fld.same a b) (honly : ∀ g : Field, g ≠ fld → g.same a b) :
    diffZipHeader sha256 (A1 ++ a :: A2) B
        = (some (wrapped a.Name (MetadataMismatch a.Name fld)), (diffZipHeader sha256 A1 B).2)
      ∧ (∀ s1 s2 : Stream, compareFiles sha256 { a with stream := s1 } { b with stream := s2 }
          = (some (MetadataMismatch a.Name fld), []))
      ∧ (∀ s1 s2 : Stream,
          diffZipHeader sha256 [{ a with stream := s1 }] [{ b with stream := s2 }]
            = (some (wrapped a.Name (MetadataMismatch a.Name fld)), [])) := by
  have hfind : ∀ s1 s2 : Stream, Field.order.find?
      (fun g => decide (¬ g.same { a with stream := s1 } { b with stream := s2 }))
      = some fld := by
    intro s1 s2
    apply find?_of_unique _ _ _ (Field.mem_order fld)
    · simpa [Field.same_stream] using hfld
    · intro g _ hg
      by_contra hne
      have := honly g hne
      simp [Field.same_stream, this] at hg
  have hcmp : ∀ s1 s2 : Stream,
      compareFiles sha256 { a with stream := s1 } { b with stream := s2 }
        = (some (MetadataMismatch a.Name fld), []) :=
    fun s1 s2 => compareFiles_of_first_difference sha256 _ _ fld (hfind s1 s2)
  have hab : compareFiles sha256 a b = (some (MetadataMismatch a.Name fld), []) :=
    hcmp a.stream b.stream
  have hok := (diffZipHeader_ok_iff_firstNamed sha256 A1 B).2 hA1
  refine ⟨?_, hcmp, ?_⟩
  · rw [diffZipHeader_append_of_ok sha256 A1 (a :: A2) B hok,
      diffZipHeader_cons_rejected sha256 a b A2 B (MetadataMismatch a.Name fld) hb
        (by rw [hab])]
    simp [hab]
  · intro s1 s2
    have hname : b.Name = a.Name := firstNamed_name B a.Name b hb
    have hlook : firstNamed [{ b with stream := s2 }] ({ a with stream := s1 } : File).Name
        = some { b with stream := s2 } := by
      simp [firstNamed, List.find?, hname]
    rw [diffZipHeader_cons_rejected sha256 _ _ [] _ (MetadataMismatch a.Name fld) hlook
      (by rw [hcmp s1 s2])]
    simp [hcmp s1 s2]

theorem single_field_mismatch_skips_content_witness :
    (∀ sha256 : List Nat → List (Fin 256), ∀ x ∈ [otherEntry],
        ∃ y, firstNamed [otherEntry, longerEntry] x.Name = some y
          ∧ (compareFiles sha256 x y).1 = none)
      ∧ firstNamed [otherEntry, longerEntry] helloEntry.Name = some longerEntry
      ∧ ¬ Field.same .uncompressedSize helloEntry longerEntry
      ∧ (∀ g : Field, g ≠ .uncompressedSize → g.same helloEntry longerEntry)
      ∧ ∀ sha256 : List Nat → List (Fin 256),
          diffZipHeader sha256 ([otherEntry] ++ helloEntry :: []) [otherEntry, longerEntry]
              = (some (wrapped helloEntry.Name
                    (MetadataMismatch helloEntry.Name .uncompressedSize)),
                 (diffZipHeader sha256 [otherEntry] [otherEntry, longerEntry]).2)
            ∧ (∀ s1 s2 : Stream,
                compareFiles sha256 { helloEntry with stream := s1 }
                    { longerEntry with stream := s2 }
                  = (some (MetadataMismatch helloEntry.Name .uncompressedSize), []))
            ∧ (∀ s1 s2 : Stream,
                diffZipHeader sha256 [{ helloEntry with stream := s1 }]
                    [{ longerEntry with stream := s2 }]
                  = (some (wrapped helloEntry.Name
                      (MetadataMismatch helloEntry.Name .uncompressedSize)), [])) := by
  have hA1 : ∀ sha256 : List Nat → List (Fin 256), ∀ x ∈ [otherEntry],
      ∃ y, firstNamed [otherEntry, longerEntry] x.Name = some y
        ∧ (compareFiles sha256 x y).1 = none := by
    intro sha256 x hx
    rw [List.mem_singleton] at hx
    subst hx
    exact ⟨otherEntry, by decide, compareFiles_self sha256 otherEntry _ rfl⟩
  have honly : ∀ g : Field, g ≠ .uncompressedSize → g.same helloEntry longerEntry := by
    intro g hg
    cases g <;> first | exact absurd rfl hg | decide
  exact ⟨hA1, by decide, by decide, honly, fun sha256 =>
    single_field_mismatch_skips_content sha256 [otherEntry] helloEntry []
      [otherEntry, longerEntry] longerEntry .uncompressedSize (hA1 sha256) (by decide)
      (by decide) honly⟩

/-- Distinct digits of the hexadecimal table are distinct characters. -/
theorem hexDigit_injective (m n : Nat) (hm : m < 16) (hn : n < 16)
    (h : hexDigit m = hexDigit n) : m = n := by
  interval_cases m <;> interval_cases n <;> first | rfl | exact absurd h (by decide)

/-- The hexadecimal text determines the bytes: `EncodeToString` is injective. -/
theorem EncodeToString_injective (xs ys : List (Fin 256))
    (h : EncodeToString xs = EncodeToString ys) : xs = ys := by
  unfold EncodeToString at h
  have h2 := congrArg String.data h
  simp only at h2
  clear h
  induction xs generalizing ys with
  | nil =>
    cases ys with
    | nil => rfl
    | cons y ys => simp at h2
  | cons x xs ih =>
    cases ys with
    | nil => simp at h2
    | cons y ys =>
      simp only [List.flatMap_cons, List.cons_append, List.nil_append, List.cons.injEq] at h2
      obtain ⟨h1, h3, h4⟩ := h2
      have hx := x.isLt
      have hy := y.isLt
      have e1 := hexDigit_injective _ _ (by omega) (by omega) h1
      have e2 := hexDigit_injective _ _ (by omega) (by omega) h3
      have hxy : x = y := Fin.ext (by omega)
      rw [hxy, ih ys h4]

/-- C10: `compareFiles a b` succeeds if and only if the twelve compared header fields are
equal (the modified times as instants, which is what `Time.Equal` compares; the
extra data as byte sequences), both content streams open and are read to the
end, and the digests of the two contents (the bytes that `sha256` gives) are
equal. -/
theorem compareFiles_succeeds_iff (sha256 : List Nat → List (Fin 256)) (a b : File) :
    (compareFiles sha256 a b).1 = none ↔
      (a.UncompressedSize64 = b.UncompressedSize64
        ∧ a.Modified.sameInstant b.Modified
        ∧ a.Method = b.Method
        ∧ a.Comment = b.Comment
        ∧ a.Extra = b.Extra
        ∧ a.NonUTF8 = b.NonUTF8
        ∧ a.CreatorVersion = b.CreatorVersion
        ∧ a.ReaderVersion = b.ReaderVersion
        ∧ a.Flags = b.Flags
        ∧ a.CRC32 = b.CRC32
        ∧ a.CompressedSize64 = b.CompressedSize64
        ∧ a.ExternalAttrs = b.ExternalAttrs)
      ∧ ∃ d1 d2, a.stream = .bytes d1 ∧ b.stream = .bytes d2 ∧ sha256 d1 = sha256 d2 := by
  rw [compareFiles_ok_iff]
  apply and_congr
  · constructor
    · intro h
      exact ⟨h .uncompressedSize, h .modifiedTime, h .compressionMethod, h .comment,
        h .extraData, h .nonUTF8Flag, h .creatorVersion, h .readerVersion, h .flags, h .crc32,
        h .compressedSize, h .externalAttributes⟩
    · rintro ⟨h1, h2, h3, h4, h5, h6, h7, h8, h9, h10, h11, h12⟩ fld
      cases fld
      · exact h1
      · exact h2
      · exact h3
      · exact h4
      · exact h5
      · exact h6
      · exact h7
      · exact h8
      · exact h9
      · exact h10
      · exact h11
      · exact h12
  · constructor
    · rintro ⟨d1, d2, h1, h2, he⟩
      exact ⟨d1, d2, h1, h2, EncodeToString_injective _ _ he⟩
    · rintro ⟨d1, d2, h1, h2, he⟩
      exact ⟨d1, d2, h1, h2, by rw [he]⟩

/-! ## The content step of `compareFiles` -/

/-- With all compared fields the same, `compareFiles` is its content step: the
result and the stream events for each behaviour of the two streams. -/
theorem compareFiles_of_same (sha256 : List Nat → List (Fin 256)) (a b : File)
    (h : ∀ fld : Field, fld.same a b) :
    compareFiles sha256 a b =
      match a.stream, b.stream with
      | .openError e, _ => (some (ContentOpenError a.Name e), [.openFailed a])
      | .readError e, _ => (some (ContentOpenError a.Name e), [.opened a, .closed a])
      | .bytes _, .openError e =>
        (some (ContentOpenError a.Name e), [.opened a, .closed a, .openFailed b])
      | .bytes _, .readError e =>
        (some (ContentOpenError a.Name e), [.opened a, .closed a, .opened b, .closed b])
      | .bytes d1, .bytes d2 =>
        (if EncodeToString (sha256 d1) = EncodeToString (sha256 d2) then none
          else some (ContentMismatch a.Name (EncodeToString (sha256 d1))
            (EncodeToString (sha256 d2))),
         [.opened a, .closed a, .opened b, .closed b]) := by
  rw [compareFiles_eq, (first_difference_none_iff a b).2 h]
  simp only [zipChecksum]
  cases h1 : a.stream <;> cases h2 : b.stream <;> simp [ContentOpenError]
  split_ifs <;> simp_all

theorem ContentOpenError_ne_ContentMismatch (name e d1 d2 : String) :
    ContentOpenError name e ≠ ContentMismatch name d1 d2 := by
  intro h
  unfold ContentOpenError ContentMismatch at h
  have h2 := congrArg String.data h
  simp only [String.data_append, List.append_assoc, List.append_cancel_left_eq] at h2
  simp at h2

/-! ## The later claims about `compareFiles` -/

/-- C11: for a pair with all compared fields equal, a failing `Open` is reported as a
`ContentOpenError` carrying the name of the first entry and the error of `Open`:
when the stream of the first entry does not open; when the first stream is read
and the stream of the second entry does not open; and in general whenever an
`Open` fails during the comparison.  When either stream cannot be opened the
result is a `ContentOpenError`, and that text is never the `ContentMismatch` of
the entry, nor success. -/
theorem open_failure_reported (sha256 : List Nat → List (Fin 256)) (a b : File)
    (hsame : ∀ fld : Field, fld.same a b) :
    (∀ e, a.stream = .openError e →
        compareFiles sha256 a b = (some (ContentOpenError a.Name e), [.openFailed a]))
      ∧ (∀ d e, a.stream = .bytes d → b.stream = .openError e →
        compareFiles sha256 a b
          = (some (ContentOpenError a.Name e), [.opened a, .closed a, .openFailed b]))
      ∧ (∀ f, Event.openFailed f ∈ (compareFiles sha256 a b).2 →
        ∃ e, f.stream = .openError e
          ∧ (compareFiles sha256 a b).1 = some (ContentOpenError a.Name e))
      ∧ ((∃ e, a.stream = .openError e ∨ b.stream = .openError e) →
        ∃ err, (compareFiles sha256 a b).1 = some (ContentOpenError a.Name err))
      ∧ (∀ err d1 d2, ContentOpenError a.Name err ≠ ContentMismatch a.Name d1 d2)
      ∧ (∀ err, some (ContentOpenError a.Name err) ≠ (none : Option String)) := by
  have hc := compareFiles_of_same sha256 a b hsame
  refine ⟨?_, ?_, ?_, ?_, fun err d1 d2 => ContentOpenError_ne_ContentMismatch a.Name err d1 d2,
    fun err h => Option.noConfusion h⟩
  · intro e he
    rw [hc, he]
  · intro d e hd he
    rw [hc, hd, he]
  · intro f hf
    rw [hc] at hf ⊢
    cases h1 : a.stream <;> cases h2 : b.stream <;> simp [h1, h2] at hf ⊢
    all_goals simp_all
  · rintro ⟨e, he | he⟩
    · exact ⟨e, by rw [hc, he]⟩
    · rw [hc, he]
      cases h1 : a.stream
      · exact ⟨_, rfl⟩
      · exact ⟨_, rfl⟩
      · exact ⟨_, rfl⟩

theorem open_failure_reported_witness :
    (∀ fld : Field, fld.same helloEntry brokenEntry)
      ∧ ∀ sha256 : List Nat → List (Fin 256),
          compareFiles sha256 helloEntry brokenEntry
            = (some (ContentOpenError helloEntry.Name "zip: unsupported compression algorithm"),
               [.opened helloEntry, .closed helloEntry, .openFailed brokenEntry]) := by
  have hsame : ∀ fld : Field, fld.same helloEntry brokenEntry := by
    intro fld
    cases fld <;> decide
  exact ⟨hsame, fun sha256 =>
    (open_failure_reported sha256 helloEntry brokenEntry hsame).2.1 _ _ rfl rfl⟩

/-- C14, as stated, fails: the two entries carry different `Modified` values (the same
instant in two locations), and `compareFiles` passes the modified-time check and
accepts the pair. -/
theorem zone_difference_not_reported :
    helloEntry.UncompressedSize64 = zonedEntry.UncompressedSize64
      ∧ helloEntry.Modified ≠ zonedEntry.Modified
      ∧ ∀ sha256 : List Nat → List (Fin 256),
          (compareFiles sha256 helloEntry zonedEntry).1 = none
            ∧ compareFiles sha256 helloEntry zonedEntry
              ≠ (some ("file " ++ helloEntry.Name ++ " has different modified time"), []) := by
  refine ⟨rfl, by decide, fun sha256 => ?_⟩
  have hsame : ∀ fld : Field, fld.same helloEntry zonedEntry := by
    intro fld
    cases fld <;> decide
  have hok : (compareFiles sha256 helloEntry zonedEntry).1 = none :=
    (compareFiles_ok_iff sha256 helloEntry zonedEntry).2 ⟨hsame, _, _, rfl, rfl, rfl⟩
  refine ⟨hok, ?_⟩
  intro h
  rw [h] at hok
  exact Option.noConfusion hok

/-- C14 (amended): modified times are compared as instants, exactly.  For entries with
equal uncompressed size, `compareFiles` reports "different modified time" (and
touches no stream) if and only if the two timestamps are not the same instant,
that is, unless their seconds and their nanoseconds are both equal; no tolerance
is applied, and the location attached to a `time.Time` is not compared. -/
theorem modified_time_exact (sha256 : List Nat → List (Fin 256)) (a b : File)
    (hsize : a.UncompressedSize64 = b.UncompressedSize64) :
    (compareFiles sha256 a b = (some ("file " ++ a.Name ++ " has different modified time"), [])
        ↔ ¬ (a.Modified.sec = b.Modified.sec ∧ a.Modified.nsec = b.Modified.nsec))
      ∧ (a.Modified.Equal b.Modified = true
        ↔ (a.Modified.sec = b.Modified.sec ∧ a.Modified.nsec = b.Modified.nsec)) := by
  have htext : MetadataMismatch a.Name .modifiedTime
      = "file " ++ a.Name ++ " has different modified time" := by
    simp [MetadataMismatch, Field.phrase, String.append_assoc]
  refine ⟨?_, Time.Equal_iff a.Modified b.Modified⟩
  rw [← htext]
  by_cases ht : a.Modified.sameInstant b.Modified
  · have hrhs : ¬ ¬ (a.Modified.sec = b.Modified.sec ∧ a.Modified.nsec = b.Modified.nsec) :=
      fun hn => hn ht
    refine iff_of_false ?_ hrhs
    intro hres
    cases hf : Field.order.find? (fun g => decide (¬ g.same a b)) with
    | some fld =>
      rw [compareFiles_of_first_difference sha256 a b fld hf] at hres
      have hfld : fld = .modifiedTime :=
        MetadataMismatch_names_field a.Name fld .modifiedTime (by simpa using hres)
      subst hfld
      have hd := List.find?_some hf
      simp [Field.same, ht] at hd
    | none =>
      rw [compareFiles_of_same sha256 a b ((first_difference_none_iff a b).1 hf)] at hres
      cases h1 : a.stream <;> cases h2 : b.stream <;> simp [h1, h2] at hres
  · refine iff_of_true ?_ ht
    apply compareFiles_of_first_difference
    simp [Field.order, List.find?, Field.same, hsize, ht]

theorem modified_time_exact_witness :
    helloEntry.UncompressedSize64 = laterEntry.UncompressedSize64
      ∧ ∀ sha256 : List Nat → List (Fin 256),
          compareFiles sha256 helloEntry laterEntry
            = (some ("file " ++ helloEntry.Name ++ " has different modified time"), []) :=
  ⟨rfl, fun sha256 =>
    (modified_time_exact sha256 helloEntry laterEntry rfl).1.2 (by decide)⟩

/-- The location of a timestamp plays no part in `Time.Equal`. -/
theorem Time.Equal_ignores_loc (t : Time) (l : Int) : t.Equal { t with loc := l } = true := by
  simp [Time.Equal]

/-! ## Content streams are closed -/

theorem zipChecksum_events (sha256 : List Nat → List (Fin 256)) (file : File) :
    (zipChecksum sha256 file).2 = [.openFailed file]
      ∨ (zipChecksum sha256 file).2 = [.opened file, .closed file] := by
  unfold zipChecksum
  cases file.stream <;> simp

/-- The stream events of `compareFiles`: none, or those of the first checksum, or
those of both checksums. -/
theorem compareFiles_events (sha256 : List Nat → List (Fin 256)) (a b : File) :
    (compareFiles sha256 a b).2 = []
      ∨ (compareFiles sha256 a b).2 = (zipChecksum sha256 a).2
      ∨ (compareFiles sha256 a b).2 = (zipChecksum sha256 a).2 ++ (zipChecksum sha256 b).2 := by
  rw [compareFiles_eq]
  cases Field.order.find? (fun fld => decide (¬ fld.same a b)) with
  | some fld => exact Or.inl rfl
  | none =>
    simp only [zipChecksum]
    cases a.stream <;> cases b.stream <;> simp
    all_goals split_ifs <;> simp

/-- C15: every stream that `zipChecksum` opens is closed before it returns, after a
read error as after a full read (the events are then exactly: opened, closed);
`compareFiles` holds at most one stream open after any number of its events and
none when it returns, whatever its result. -/
theorem streams_closed_before_return (sha256 : List Nat → List (Fin 256)) :
    (∀ file : File, held [] (zipChecksum sha256 file).2 = []
        ∧ (∀ e, file.stream = .readError e →
            zipChecksum sha256 file = (.error e, [.opened file, .closed file]))
        ∧ (∀ d, file.stream = .bytes d →
            zipChecksum sha256 file
              = (.ok (EncodeToString (sha256 d)), [.opened file, .closed file]))
        ∧ (∀ f, Event.opened f ∈ (zipChecksum sha256 file).2 →
            (zipChecksum sha256 file).2 = [.opened f, .closed f]))
      ∧ ∀ a b : File, held [] (compareFiles sha256 a b).2 = []
          ∧ ∀ n, (held [] ((compareFiles sha256 a b).2.take n)).length ≤ 1 := by
  constructor
  · intro file
    refine ⟨?_, ?_, ?_, ?_⟩
    · rcases zipChecksum_events sha256 file with h | h <;> rw [h] <;> simp [held]
    · intro e he
      simp [zipChecksum, he]
    · intro d hd
      simp [zipChecksum, hd]
    · intro f hf
      rcases zipChecksum_events sha256 file with h | h <;> rw [h] at hf ⊢ <;> simp at hf
      rw [hf]
  · intro a b
    have key : ∀ t : List Event,
        (t = [] ∨ t = (zipChecksum sha256 a).2
          ∨ t = (zipChecksum sha256 a).2 ++ (zipChecksum sha256 b).2) →
        held [] t = [] ∧ ∀ n, (held [] (t.take n)).length ≤ 1 := by
      intro t ht
      rcases zipChecksum_events sha256 a with ha | ha <;>
        rcases zipChecksum_events sha256 b with hb | hb <;>
        rw [ha, hb] at ht <;>
        rcases ht with rfl | rfl | rfl <;>
        refine ⟨by simp [held], fun n => ?_⟩ <;>
        rcases n with _ | _ | _ | _ | n <;>
        simp [held]
    exact key _ (compareFiles_events sha256 a b)

/-! ## Symmetry and transitivity -/

theorem Field.same_symm (fld : Field) (a b : File) (h : fld.same a b) : fld.same b a := by
  cases fld <;> first | exact Eq.symm h | exact ⟨h.1.symm, h.2.symm⟩

theorem Field.same_trans (fld : Field) (a b c : File) (h1 : fld.same a b) (h2 : fld.same b c) :
    fld.same a c := by
  cases fld <;> first | exact Eq.trans h1 h2 | exact ⟨h1.1.trans h2.1, h1.2.trans h2.2⟩

theorem first_difference_symm (a b : File) :
    Field.order.find? (fun g => decide (¬ g.same b a))
      = Field.order.find? (fun g => decide (¬ g.same a b)) := by
  have hp : (fun g : Field => decide (¬ g.same b a)) = (fun g => decide (¬ g.same a b)) := by
    funext g
    have hiff : g.same b a ↔ g.same a b := ⟨g.same_symm b a, g.same_symm a b⟩
    simp [hiff]
  rw [hp]

/-- C16: transitivity.  If `diffZipHeader A B` and `diffZipHeader B C` succeed, then
`diffZipHeader A C` succeeds (the content stream of an entry is a fixed attribute
of the entry, the same each time it is opened). -/
theorem containment_transitive (sha256 : List Nat → List (Fin 256)) (A B C : List File)
    (hAB : (diffZipHeader sha256 A B).1 = none) (hBC : (diffZipHeader sha256 B C).1 = none) :
    (diffZipHeader sha256 A C).1 = none := by
  rw [diffZipHeader_ok_iff_firstNamed] at hAB hBC ⊢
  intro a ha
  obtain ⟨b, hb, hab⟩ := hAB a ha
  obtain ⟨c, hc, hbc⟩ := hBC b (firstNamed_mem B a.Name b hb)
  rw [firstNamed_name B a.Name b hb] at hc
  refine ⟨c, hc, ?_⟩
  obtain ⟨hs1, d1, d2, hd1, hd2, he1⟩ := (compareFiles_ok_iff sha256 a b).1 hab
  obtain ⟨hs2, d3, d4, hd3, hd4, he2⟩ := (compareFiles_ok_iff sha256 b c).1 hbc
  rw [hd2] at hd3
  cases hd3
  exact (compareFiles_ok_iff sha256 a c).2
    ⟨fun fld => fld.same_trans a b c (hs1 fld) (hs2 fld), d1, d4, hd1, hd4, he1.trans he2⟩

theorem diffZipHeader_hello_ok (sha256 : List Nat → List (Fin 256)) (B : List File) :
    (diffZipHeader sha256 [helloEntry] (helloEntry :: B)).1 = none := by
  rw [diffZipHeader_ok_iff_firstNamed]
  intro a ha
  rw [List.mem_singleton] at ha
  subst ha
  exact ⟨helloEntry, by simp [firstNamed, List.find?], compareFiles_self sha256 helloEntry _ rfl⟩

theorem containment_transitive_witness :
    (∀ sha256 : List Nat → List (Fin 256),
        (diffZipHeader sha256 [helloEntry] [helloEntry, otherEntry]).1 = none)
      ∧ (∀ sha256 : List Nat → List (Fin 256),
        (diffZipHeader sha256 [helloEntry, otherEntry] [helloEntry, otherEntry, laterEntry]).1
          = none)
      ∧ ∀ sha256 : List Nat → List (Fin 256),
        (diffZipHeader sha256 [helloEntry] [helloEntry, otherEntry, laterEntry]).1 = none := by
  have h1 : ∀ sha256 : List Nat → List (Fin 256),
      (diffZipHeader sha256 [helloEntry] [helloEntry, otherEntry]).1 = none :=
    fun sha256 => diffZipHeader_hello_ok sha256 [otherEntry]
  have h2 : ∀ sha256 : List Nat → List (Fin 256),
      (diffZipHeader sha256 [helloEntry, otherEntry] [helloEntry, otherEntry, laterEntry]).1
        = none := by
    intro sha256
    rw [diffZipHeader_ok_iff_firstNamed]
    intro a ha
    simp only [List.mem_cons, List.mem_singleton, List.not_mem_nil, or_false] at ha
    rcases ha with rfl | rfl
    · exact ⟨helloEntry, by decide, compareFiles_self sha256 helloEntry _ rfl⟩
    · exact ⟨otherEntry, by decide, compareFiles_self sha256 otherEntry _ rfl⟩
  exact ⟨h1, h2, fun sha256 =>
    containment_transitive sha256 [helloEntry] [helloEntry, otherEntry]
      [helloEntry, otherEntry, laterEntry] (h1 sha256) (h2 sha256)⟩

/-- C17: for entries with the same name, `compareFiles a b` succeeds if and only if
`compareFiles b a` succeeds; and when some compared field differs, both
directions return the same `MetadataMismatch` error, naming the same field. -/
theorem compareFiles_symmetric (sha256 : List Nat → List (Fin 256)) (a b : File)
    (hname : a.Name = b.Name) :
    ((compareFiles sha256 a b).1 = none ↔ (compareFiles sha256 b a).1 = none)
      ∧ ((∃ fld : Field, ¬ fld.same a b) →
        ∃ fld, compareFiles sha256 a b = (some (MetadataMismatch a.Name fld), [])
          ∧ compareFiles sha256 b a = (some (MetadataMismatch a.Name fld), [])) := by
  constructor
  · rw [compareFiles_ok_iff, compareFiles_ok_iff]
    constructor
    · rintro ⟨hs, d1, d2, h1, h2, he⟩
      exact ⟨fun fld => fld.same_symm a b (hs fld), d2, d1, h2, h1, he.symm⟩
    · rintro ⟨hs, d1, d2, h1, h2, he⟩
      exact ⟨fun fld => fld.same_symm b a (hs fld), d2, d1, h2, h1, he.symm⟩
  · rintro ⟨g, hg⟩
    cases hf : Field.order.find? (fun g => decide (¬ g.same a b)) with
    | none => exact absurd ((first_difference_none_iff a b).1 hf g) hg
    | some fld =>
      refine ⟨fld, compareFiles_of_first_difference sha256 a b fld hf, ?_⟩
      rw [hname]
      exact compareFiles_of_first_difference sha256 b a fld
        ((first_difference_symm a b).trans hf)

theorem compareFiles_symmetric_witness :
    helloEntry.Name = longerEntry.Name
      ∧ ∀ sha256 : List Nat → List (Fin 256),
          ((compareFiles sha256 helloEntry longerEntry).1 = none
            ↔ (compareFiles sha256 longerEntry helloEntry).1 = none) :=
  ⟨rfl, fun sha256 => (compareFiles_symmetric sha256 helloEntry longerEntry rfl).1⟩

/-- C18: the content-open diagnostic does not tell the sides apart.  With all compared
fields equal, when the first stream is read and the second stream fails with the
error `e` (at `Open` or while it is read), `compareFiles` returns the error
"file <name> cannot be opened from file 1: e", and that is the error it returns
whenever the first stream fails with `e`, whatever the second stream does. -/
theorem open_diagnostic_same_for_both_sides (sha256 : List Nat → List (Fin 256)) (a b : File)
    (d : List Nat) (e : String) (hsame : ∀ fld : Field, fld.same a b)
    (ha : a.stream = .bytes d) (hb : b.stream = .openError e ∨ b.stream = .readError e) :
    (compareFiles sha256 a b).1
        = some ("file " ++ a.Name ++ " cannot be opened from file 1: " ++ e)
      ∧ ∀ s1 s2 : Stream, (s1 = .openError e ∨ s1 = .readError e) →
          (compareFiles sha256 { a with stream := s1 } { b with stream := s2 }).1
            = (compareFiles sha256 a b).1 := by
  have hres : (compareFiles sha256 a b).1 = some (ContentOpenError a.Name e) := by
    rw [compareFiles_of_same sha256 a b hsame, ha]
    rcases hb with hb | hb <;> rw [hb]
  refine ⟨hres, ?_⟩
  intro s1 s2 hs1
  have hsame2 : ∀ fld : Field, fld.same { a with stream := s1 } { b with stream := s2 } :=
    fun fld => (fld.same_stream a b s1 s2).2 (hsame fld)
  rw [hres, compareFiles_of_same sha256 _ _ hsame2]
  rcases hs1 with rfl | rfl <;> rfl

theorem open_diagnostic_same_for_both_sides_witness :
    (∀ fld : Field, fld.same helloEntry brokenEntry)
      ∧ helloEntry.stream = .bytes [104, 101, 108, 108, 111]
      ∧ (brokenEntry.stream = .openError "zip: unsupported compression algorithm"
        ∨ brokenEntry.stream = .readError "zip: unsupported compression algorithm")
      ∧ ∀ sha256 : List Nat → List (Fin 256),
          (compareFiles sha256 helloEntry brokenEntry).1
            = (compareFiles sha256 brokenEntry helloEntry).1 := by
  have hsame : ∀ fld : Field, fld.same helloEntry brokenEntry := by
    intro fld
    cases fld <;> decide
  refine ⟨hsame, rfl, Or.inl rfl, fun sha256 => ?_⟩
  exact ((open_diagnostic_same_for_both_sides sha256 helloEntry brokenEntry _ _ hsame rfl
    (Or.inl rfl)).2 (.openError "zip: unsupported compression algorithm")
    (.bytes [104, 101, 108, 108, 111]) (Or.inl rfl)).symm

/-! ## The entry point `main` -/

theorem main_too_few (sha256 : List Nat → List (Fin 256))
    (OpenReader : String → OpenResult) (Args : List String)
    (h : Args.length < 3) : main sha256 OpenReader Args = Fatal "Not enough arguments" [] := by
  simp [main, h]

/-- Every run is of one of five shapes; the archives are closed in the last one only. -/
theorem main_cases (sha256 : List Nat → List (Fin 256))
    (OpenReader : String → OpenResult) (Args : List String) :
    main sha256 OpenReader Args = Fatal "Not enough arguments" []
      ∨ (∃ err, main sha256 OpenReader Args = Fatal err [])
      ∨ (∃ err, main sha256 OpenReader Args = Fatal err [.archiveOpened 1])
      ∨ (∃ (err : String) (t : List Event), main sha256 OpenReader Args
          = Fatal err ([.archiveOpened 1, .archiveOpened 2] ++ t.map Effect.stream))
      ∨ (∃ t : List Event, main sha256 OpenReader Args
          = { status := 0, message := none,
              effects := [.archiveOpened 1, .archiveOpened 2] ++ t.map Effect.stream
                ++ [.archiveClosed 2, .archiveClosed 1] }) := by
  unfold main
  by_cases h : Args.length < 3
  · simp [h]
  · simp only [h, if_false]
    cases OpenReader (Args.getD 1 "") with
    | error err => exact Or.inr (Or.inl ⟨err, rfl⟩)
    | readerAndError zr err => exact Or.inr (Or.inr (Or.inl ⟨err, rfl⟩))
    | ok zr1 =>
      cases OpenReader (Args.getD 2 "") with
      | error err => exact Or.inr (Or.inr (Or.inl ⟨err, rfl⟩))
      | readerAndError zr err => exact Or.inr (Or.inr (Or.inr (Or.inl ⟨err, [], rfl⟩)))
      | ok zr2 =>
        rcases hd : diffZipHeader sha256 zr1 zr2 with ⟨r, t⟩
        cases r with
        | some err => exact Or.inr (Or.inr (Or.inr (Or.inl ⟨err, t, by simp [hd]⟩)))
        | none =>
          exact Or.inr (Or.inr (Or.inr (Or.inr ⟨t, by simp [hd, closeAndIgnoreError]⟩)))

/-- A run that ends with a nonzero status closes no archive handle; a run that ends
with status zero closes both, the second first. -/
theorem main_closes_only_on_success (sha256 : List Nat → List (Fin 256))
    (OpenReader : String → OpenResult) (Args : List String) :
    ((main sha256 OpenReader Args).status ≠ 0 →
        ∀ handle, Effect.archiveClosed handle ∉ (main sha256 OpenReader Args).effects)
      ∧ ((main sha256 OpenReader Args).status = 0 →
        ∃ t, (main sha256 OpenReader Args).effects
          = [.archiveOpened 1, .archiveOpened 2] ++ t ++ [.archiveClosed 2, .archiveClosed 1]) := by
  rcases main_cases sha256 OpenReader Args with h | ⟨err, h⟩ | ⟨err, h⟩ | ⟨err, t, h⟩ | ⟨t, h⟩
  all_goals rw [h]
  all_goals simp [Fatal]

/-- C12, at the failing inputs: when the second archive does not open, and when the
comparison reports a missing entry, the run ends through `log.Fatal` with status
1 and the archives it opened are not closed (the deferred closes never run). -/
theorem fatal_exit_skips_deferred_close :
    (∀ sha256 : List Nat → List (Fin 256),
        main sha256 onlyFirstArchive ["zip-diff", "a.zip", "b.zip"]
          = { status := 1, message := some "open b.zip: no such file or directory",
              effects := [.archiveOpened 1] })
      ∧ (∀ sha256 : List Nat → List (Fin 256),
        main sha256 secondArchiveEmpty ["zip-diff", "a.zip", "b.zip"]
          = { status := 1, message := some "file x.txt not found in the second zip",
              effects := [.archiveOpened 1, .archiveOpened 2] })
      ∧ Effect.archiveClosed 1 ∉ [Effect.archiveOpened 1]
      ∧ Effect.archiveClosed 1 ∉ [Effect.archiveOpened 1, Effect.archiveOpened 2]
      ∧ Effect.archiveClosed 2 ∉ [Effect.archiveOpened 1, Effect.archiveOpened 2] :=
  ⟨fun _ => rfl, fun _ => rfl, by decide, by decide, by decide⟩

/-- C13, as stated, fails: with three positional arguments the run is no usage error;
both archives are opened, compared and closed, and the status is zero. -/
theorem extra_arguments_accepted :
    (positional ["zip-diff", "a.zip", "b.zip", "c.zip"]).length ≠ 2
      ∧ ∀ sha256 : List Nat → List (Fin 256),
          main sha256 everyArchiveEmpty ["zip-diff", "a.zip", "b.zip", "c.zip"]
            = { status := 0, message := none,
                effects := [.archiveOpened 1, .archiveOpened 2, .archiveClosed 2,
                  .archiveClosed 1] } :=
  ⟨by decide, fun _ => rfl⟩

/-- C13 (amended): with fewer than two positional arguments the run ends with the usage
error (status 1, "Not enough arguments") and opens no archive.  With two or more
there is no usage check failure: the first positional argument is opened as the
first archive and then the second as the second archive, the run ends with the
error of a failed open or with the result of the comparison (status 0 and both
archives closed when it succeeds), and the further arguments are ignored. -/
theorem usage_error_when_too_few (sha256 : List Nat → List (Fin 256))
    (OpenReader : String → OpenResult) (Args : List String) :
    ((positional Args).length < 2 →
        main sha256 OpenReader Args
          = { status := 1, message := some "Not enough arguments", effects := [] })
      ∧ (2 ≤ (positional Args).length →
        main sha256 OpenReader Args = main sha256 OpenReader (Args.take 3))
      ∧ (∀ filePath1 filePath2 rest, positional Args = filePath1 :: filePath2 :: rest →
        (∀ err, OpenReader filePath1 = .error err →
            main sha256 OpenReader Args = Fatal err [])
        ∧ (∀ zr err, OpenReader filePath1 = .readerAndError zr err →
            main sha256 OpenReader Args = Fatal err [.archiveOpened 1])
        ∧ (∀ zr1 err, OpenReader filePath1 = .ok zr1 → OpenReader filePath2 = .error err →
            main sha256 OpenReader Args = Fatal err [.archiveOpened 1])
        ∧ (∀ zr1 zr err, OpenReader filePath1 = .ok zr1 →
            OpenReader filePath2 = .readerAndError zr err →
            main sha256 OpenReader Args = Fatal err [.archiveOpened 1, .archiveOpened 2])
        ∧ (∀ zr1 zr2 err, OpenReader filePath1 = .ok zr1 → OpenReader filePath2 = .ok zr2 →
            (diffZipHeader sha256 zr1 zr2).1 = some err →
            main sha256 OpenReader Args
              = Fatal err ([.archiveOpened 1, .archiveOpened 2]
                  ++ (diffZipHeader sha256 zr1 zr2).2.map Effect.stream))
        ∧ (∀ zr1 zr2, OpenReader filePath1 = .ok zr1 → OpenReader filePath2 = .ok zr2 →
            (diffZipHeader sha256 zr1 zr2).1 = none →
            main sha256 OpenReader Args
              = { status := 0, message := none,
                  effects := [.archiveOpened 1, .archiveOpened 2]
                    ++ (diffZipHeader sha256 zr1 zr2).2.map Effect.stream
                    ++ [.archiveClosed 2, .archiveClosed 1] })) := by
  have hlen : (positional Args).length = Args.length - 1 := by
    simp [positional]
  refine ⟨?_, ?_, ?_⟩
  · intro h
    exact main_too_few sha256 OpenReader Args (by omega)
  · intro h
    have h3 : ¬ Args.length < 3 := by omega
    have h3t : ¬ (Args.take 3).length < 3 := by
      rw [List.length_take]
      omega
    have g1 : (Args.take 3).getD 1 "" = Args.getD 1 "" := by
      simp [List.getD, List.getElem?_take]
    have g2 : (Args.take 3).getD 2 "" = Args.getD 2 "" := by
      simp [List.getD, List.getElem?_take]
    simp only [main, h3, h3t, if_false, g1, g2]
  · intro filePath1 filePath2 rest hpos
    obtain ⟨prog, hArgs⟩ : ∃ prog, Args = prog :: filePath1 :: filePath2 :: rest := by
      cases Args with
      | nil => simp [positional] at hpos
      | cons prog tl =>
        simp only [positional, List.tail_cons] at hpos
        exact ⟨prog, by rw [hpos]⟩
    subst hArgs
    have h3 : ¬ (prog :: filePath1 :: filePath2 :: rest).length < 3 := by
      simp
    have g1 : (prog :: filePath1 :: filePath2 :: rest).getD 1 "" = filePath1 := rfl
    have g2 : (prog :: filePath1 :: filePath2 :: rest).getD 2 "" = filePath2 := rfl
    refine ⟨?_, ?_, ?_, ?_, ?_, ?_⟩
    · intro err h1
      simp only [main, h3, if_false, g1, g2, h1]
    · intro zr err h1
      simp only [main, h3, if_false, g1, g2, h1]
    · intro zr1 err h1 h2
      simp only [main, h3, if_false, g1, g2, h1, h2]
    · intro zr1 zr err h1 h2
      simp only [main, h3, if_false, g1, g2, h1, h2]
    · intro zr1 zr2 err h1 h2 hd
      rcases hdiff : diffZipHeader sha256 zr1 zr2 with ⟨r, t⟩
      rw [hdiff] at hd
      simp only at hd
      subst hd
      simp only [main, h3, if_false, g1, g2, h1, h2, hdiff]
    · intro zr1 zr2 h1 h2 hd
      rcases hdiff : diffZipHeader sha256 zr1 zr2 with ⟨r, t⟩
      rw [hdiff] at hd
      simp only at hd
      subst hd
      simp [main, h3, g1, g2, h1, h2, hdiff, closeAndIgnoreError]

theorem usage_error_when_too_few_witness :
    (positional ["zip-diff", "a.zip"]).length < 2
      ∧ ∀ sha256 : List Nat → List (Fin 256),
          main sha256 everyArchiveEmpty ["zip-diff", "a.zip"]
            = { status := 1, message := some "Not enough arguments", effects := [] } :=
  ⟨by decide, fun sha256 =>
    (usage_error_when_too_few sha256 everyArchiveEmpty ["zip-diff", "a.zip"]).1 (by decide)⟩

end ZipDiff
